import Mathlib

/-!
Verification of the otto task runner's core engine, shallowly embedded from
the Rust sources.

Conventions used throughout this development:
* Rust `Duration` values are modelled as nanosecond counts (`Nat`).  A Rust
  `Duration` stores `secs : u64` and `nanos < 10^9`, so the largest
  representable duration is `(2^64 - 1) * 10^9 + (10^9 - 1)` nanoseconds;
  `Duration::checked_mul` fails exactly when the product exceeds that bound.
* Rust `i32` quantities that the claims restrict to small ranges (`retries`)
  are modelled as `Int` without wrap-around; every theorem below stays inside
  ranges where `i32` arithmetic cannot overflow.
* `std::process` side effects (spawning a child, waiting, reading stderr) are
  abstracted by an oracle `Nat → RunOnceOutcome` giving the outcome the
  `run_once` helper would report for each attempt index; the retry loop of
  `runner::execute` is translated verbatim on top of that oracle.  The model
  additionally reports the list of back-off sleeps performed and the number of
  attempts consumed, so that "no delay after the final attempt" and "no
  process is spawned" become statable.
-/

deriving instance DecidableEq for Except

namespace Otto

/-- Rust `model.rs`: `enum RunStatus { Success, Failed }`. -/
inductive RunStatus where
  | Success
  | Failed
deriving DecidableEq, Repr

/-- Rust `model.rs`: `enum RunSource { Task, Inline }`. -/
inductive RunSource where
  | Task
  | Inline
deriving DecidableEq, Repr

/-! ## Durations (`std::time::Duration`, in nanoseconds) -/

/-- Largest value representable by a Rust `Duration`, in nanoseconds:
`secs` is a `u64` and `nanos` is below `10^9`. -/
def durationMax : Nat := (2 ^ 64 - 1) * 1000000000 + 999999999

/-- Rust `Duration::checked_mul(self, rhs)`: the product when it is representable,
`none` on overflow. -/
def checkedMul (d : Nat) (n : Nat) : Option Nat :=
  if d * n ≤ durationMax then some (d * n) else none

/-- One second, in nanoseconds. -/
def oneSecond : Nat := 1000000000

/-- Sixty seconds, in nanoseconds. -/
def sixtySeconds : Nat := 60 * 1000000000

/-! ## `runner.rs`: the retry controller `execute` -/

/-- Rust `runner.rs`: the fields of `Request` that `execute` itself reads.  The
fields forwarded verbatim to the spawned process (`name`, `command_preview`,
`dir`, `env`, `timeout`, `stream_output`) only matter inside `run_once`,
which is abstracted by the attempt oracle. -/
structure Request where
  use_shell : Bool
  exec : List String
  shell : String
  retries : Int
  retry_backoff : Nat
deriving Repr

/-- Rust `runner.rs`: `RunResult`, minus the wall-clock fields `started_at` and
`duration` (real time, outside the embedding). -/
structure RunResult where
  exit_code : Int
  status : RunStatus
  stderr_tail : Option String
deriving DecidableEq, Repr

/-- Rust `runner.rs`: `RunFailure`. -/
structure RunFailure where
  result : RunResult
  message : String
deriving DecidableEq, Repr

/-- Outcome of one `run_once(req)` call, i.e. a value of
`Result<(i32, Option<String>, Option<String>), String>`:
`ok` is `Ok(code, tail, None)`, `fail` is `Ok(code, tail, Some(err))`,
`spawnErr` is `Err(err)`. -/
inductive RunOnceOutcome where
  | ok (code : Int) (stderrTail : Option String)
  | fail (code : Int) (stderrTail : Option String) (err : String)
  | spawnErr (err : String)
deriving DecidableEq, Repr

/-- Whether a `run_once` outcome is a success (`Ok(code, tail, None)`). -/
def RunOnceOutcome.isOk : RunOnceOutcome → Bool
  | .ok _ _ => true
  | _ => false

/-- The exit code an outcome contributes to the result (`last_exit` updates:
a spawn error records 127). -/
def RunOnceOutcome.exitOf : RunOnceOutcome → Int
  | .ok code _ => code
  | .fail code _ _ => code
  | .spawnErr _ => 127

/-- The stderr tail an outcome contributes (`last_stderr` updates: a spawn
error records `None`). -/
def RunOnceOutcome.stderrOf : RunOnceOutcome → Option String
  | .ok _ tail => tail
  | .fail _ tail _ => tail
  | .spawnErr _ => none

/-- The error message an outcome contributes (`last_error` updates). -/
def RunOnceOutcome.errOf : RunOnceOutcome → String
  | .ok _ _ => ""
  | .fail _ _ err => err
  | .spawnErr err => err

/-- Rust `runner.rs` line 62: zero backoff is normalized to one second. -/
def normBackoff (retry_backoff : Nat) : Nat :=
  if retry_backoff = 0 then oneSecond else retry_backoff

/-- Rust `runner.rs` lines 100-102: the sleep before the next attempt,
`retry_backoff.checked_mul(1 << attempt).unwrap_or(Duration::from_secs(60))`.
(`1_u32 << attempt` equals `2 ^ attempt` for the attempt indices reachable
with `retries ≤ 10`.) -/
def backoffDelay (backoff : Nat) (attempt : Nat) : Nat :=
  (checkedMul backoff (2 ^ attempt)).getD sixtySeconds

/-- Rust `runner.rs` lines 76-105: the retry loop of `execute`.  `i` is the current
attempt index, `remaining` the number of loop iterations left
(`attempts - i`), and `lastExit`/`lastStderr`/`lastErr` mirror the mutable
`last_exit`/`last_stderr`/`last_error` accumulators.  Returns the result
together with the list of sleeps performed (nanoseconds, in order) and the
number of attempts consumed. -/
def runAttempts (runOnce : Nat → RunOnceOutcome) (backoff : Nat) :
    Nat → Nat → Int → Option String → String →
    Except RunFailure RunResult × List Nat × Nat
  | _, 0, lastExit, lastStderr, lastErr =>
      (.error ⟨⟨lastExit, .Failed, lastStderr⟩, lastErr⟩, [], 0)
  | i, remaining + 1, _, _, _ =>
      match runOnce i with
      | .ok code tail => (.ok ⟨code, .Success, tail⟩, [], 1)
      | .fail code tail err =>
          let rest := runAttempts runOnce backoff (i + 1) remaining code tail err
          (rest.1,
           (if 0 < remaining then [backoffDelay backoff i] else []) ++ rest.2.1,
           rest.2.2 + 1)
      | .spawnErr err =>
          let rest := runAttempts runOnce backoff (i + 1) remaining 127 none err
          (rest.1,
           (if 0 < remaining then [backoffDelay backoff i] else []) ++ rest.2.1,
           rest.2.2 + 1)

/-- Rust `runner.rs` lines 40-117: `execute`, with process execution abstracted by
the per-attempt oracle `runOnce`.  Returns the result, the sleeps performed,
and the number of attempts consumed. -/
def execute (runOnce : Nat → RunOnceOutcome) (req : Request) :
    Except RunFailure RunResult × List Nat × Nat :=
  if req.retries < 0 then
    (.error ⟨⟨127, .Failed, none⟩, "retries must be >= 0"⟩, [], 0)
  else if req.use_shell ∧ req.shell.trim = "" then
    (.error ⟨⟨127, .Failed, none⟩, "shell command is required"⟩, [], 0)
  else if ¬req.use_shell ∧ req.exec = [] then
    (.error ⟨⟨127, .Failed, none⟩, "exec command is required"⟩, [], 0)
  else
    runAttempts runOnce (normBackoff req.retry_backoff)
      0 (req.retries + 1).toNat 0 none ""

/-! ## `runner.rs`: `tail` -/

/-- Rust `str::trim_end_matches('\n')`: drop every trailing newline. -/
def trimEndNl (l : List Char) : List Char :=
  (l.reverse.dropWhile (· = '\n')).reverse

/-- Split a character list at every `'\n'`; the separators are consumed and
the result always has one more segment than there are newlines. -/
def splitOnNl : List Char → List (List Char)
  | [] => [[]]
  | c :: rest =>
      if c = '\n' then [] :: splitOnNl rest
      else
        match splitOnNl rest with
        | [] => [[c]]
        | s :: ss => (c :: s) :: ss

/-- Remove one trailing `'\r'` (how `str::lines` treats a `"\r\n"` ending). -/
def stripCr (l : List Char) : List Char :=
  if l.getLast? = some '\r' then l.dropLast else l

/-- Apply `f` to every element except the last. -/
def mapInit (f : α → α) : List α → List α
  | [] => []
  | [a] => [a]
  | a :: b :: rest => f a :: mapInit f (b :: rest)

/-- Rust `str::lines()` on a string with no trailing `'\n'`: split on `'\n'` and
strip the `'\r'` of every `"\r\n"` terminator.  Every segment except the last
was terminated by `'\n'` in the input, so exactly those get a trailing
`'\r'` removed. -/
def rustLines (l : List Char) : List (List Char) :=
  mapInit stripCr (splitOnNl l)

/-- Rust `String::join("\n")` over character lists. -/
def joinNl : List (List Char) → List Char
  | [] => []
  | [s] => s
  | s :: rest => s ++ '\n' :: joinNl rest

/-- Rust `runner.rs` lines 254-277: `tail(input, line_limit, char_limit)`.
`Vec::split_off(len - limit)` keeps the last `limit` lines;
`chars().skip(start)` keeps the last `char_limit` characters. -/
def tail (input : String) (line_limit char_limit : Nat) : Option String :=
  if input = "" then none
  else
    let trimmed := trimEndNl input.data
    if trimmed = [] then none
    else
      let lines := rustLines trimmed
      let lines :=
        if lines.length > line_limit then lines.drop (lines.length - line_limit)
        else lines
      let out := joinNl lines
      let out :=
        if out.length > char_limit then out.drop (out.length - char_limit)
        else out
      some ⟨out⟩

/-- The last `n` elements of a list (the spec's "retain the last …, dropping
the oldest"). -/
def takeRight (n : Nat) (l : List α) : List α :=
  l.drop (l.length - n)

/-! ## `config.rs`: task definitions and `resolve_task`

`HashMap<String, T>` fields are modelled as association lists looked up by
first match; duration parsing (`humantime::parse_duration`, an external
crate) is abstracted by a `parseDur` parameter returning the nanosecond
count of a valid duration string, or `none`.
-/

/-- First-match lookup in an association list (a `HashMap::get`). -/
def lookupA (m : List (String × α)) (k : String) : Option α :=
  match m with
  | [] => none
  | (k', v) :: rest => if k' = k then some v else lookupA rest k

/-- Rust `config.rs`: `struct Task` (the `description` field is only used by the
`tasks` listing command and is omitted). -/
structure Task where
  exec : List String := []
  run : String := ""
  tasks : List String := []
  parallel : Bool := false
  dir : String := ""
  env : List (String × String) := []
  timeout : String := ""
  retries : Option Int := none
  retry_backoff : String := ""
  notify_on : String := ""
deriving Repr

/-- Rust `config.rs`: `struct Defaults`. -/
structure Defaults where
  timeout : String := ""
  retries : Option Int := none
  retry_backoff : String := ""
  notify_on : String := ""
deriving Repr

/-- Rust `config.rs`: `struct Config` (the `notifications` block is consumed only
by the external notifier and is omitted). -/
structure Config where
  version : Int := 1
  defaults : Defaults := {}
  tasks : Option (List (String × Task)) := none
deriving Repr

/-- Rust `config.rs`: `struct ResolvedTask` (string fields at the resolver level;
durations in nanoseconds). -/
structure ResolvedTask where
  name : String
  source : RunSource
  command_preview : String
  sub_tasks : List String
  parallel : Bool
  use_shell : Bool
  exec : List String
  shell : String
  dir : String
  env : List (String × String)
  timeout : Nat
  retries : Int
  retry_backoff : Nat
  notify_on : String
deriving Repr

/-- Rust `config.rs` lines 466-480: `resolve_duration(primary, fallback, default)`. -/
def resolve_duration (parseDur : String → Option Nat)
    (primary fallback : String) (default_value : Nat) : Except String Nat :=
  if primary ≠ "" then
    match parseDur primary with
    | some d => .ok d
    | none => .error "must be a valid duration"
  else if fallback ≠ "" then
    match parseDur fallback with
    | some d => .ok d
    | none => .error "must be a valid duration"
  else .ok default_value

/-- Rust `config.rs` lines 482-484: `resolve_retries(primary, fallback, default)`. -/
def resolve_retries (primary fallback : Option Int) (default_value : Int) : Int :=
  (primary.or fallback).getD default_value

/-- Rust `config.rs` lines 486-494: `resolve_notify_on(primary, fallback, default)`. -/
def resolve_notify_on (primary fallback default_value : String) : String :=
  if primary ≠ "" then primary
  else if fallback ≠ "" then fallback
  else default_value

/-- Rust `config.rs` lines 496-498: `join_command_preview(args)` = `args.join(" ")`. -/
def join_command_preview (args : List String) : String :=
  String.intercalate " " args

/-- Rust `config.rs` lines 500-503: `join_task_preview(tasks, parallel)`. -/
def join_task_preview (tasks : List String) (parallel : Bool) : String :=
  "tasks (" ++ (if parallel then "parallel" else "sequential") ++ "): "
    ++ String.intercalate ", " tasks

/-- Rust `config.rs` lines 182-234: `Config::resolve_task(name)`.  `{name:?}` in
the Rust error messages is rendered as the name between plain double quotes
(exact for names without characters needing escapes, which validation
enforces). -/
def Config.resolve_task (parseDur : String → Option Nat) (cfg : Config)
    (name : String) : Except String ResolvedTask :=
  match cfg.tasks with
  | none => .error "tasks: is required"
  | some tasks =>
    match lookupA tasks name with
    | none => .error ("task \"" ++ name ++ "\" not found")
    | some task =>
      match resolve_duration parseDur task.timeout cfg.defaults.timeout 0 with
      | .error e => .error ("task \"" ++ name ++ "\" timeout: " ++ e)
      | .ok timeout =>
        match resolve_duration parseDur task.retry_backoff
            cfg.defaults.retry_backoff oneSecond with
        | .error e => .error ("task \"" ++ name ++ "\" retry_backoff: " ++ e)
        | .ok retry_backoff =>
          let base : ResolvedTask :=
            { name := name
              source := .Task
              command_preview := ""
              sub_tasks := []
              parallel := task.parallel
              use_shell := false
              exec := []
              shell := ""
              dir := task.dir
              env := task.env
              timeout := timeout
              retries := resolve_retries task.retries cfg.defaults.retries 0
              retry_backoff := retry_backoff
              notify_on := resolve_notify_on task.notify_on
                cfg.defaults.notify_on "failure" }
          if task.exec ≠ [] then
            .ok { base with
              use_shell := false
              exec := task.exec
              command_preview := join_command_preview task.exec }
          else if task.tasks ≠ [] then
            .ok { base with
              sub_tasks := task.tasks
              command_preview := join_task_preview task.tasks task.parallel }
          else
            .ok { base with
              use_shell := true
              shell := task.run
              command_preview := task.run }

/-! ## `cli/mod.rs`: the orchestrator `run_named_task`

`AppError` carries its process exit code (`usage` = 2, `runtime` = 1,
`internal` = 3) and message; `Display` prints just the message.  The leaf
branch (`apply_runtime_env` + `execute_run`, which runs processes and writes
history) neither reads nor writes the task-name stack, so it is abstracted
by an oracle `String → Except AppError Unit` giving the outcome of
`execute_run` for a leaf task name.  The model instruments the run with an
event trace (`resolve` for each `cfg.resolve_task` call, `leafRun` for each
`execute_run` call — the only place a child process can be spawned) and
threads the stack explicitly.  Recursion into sub-task groups is bounded by
a `fuel` parameter — a model artifact only: running out of fuel yields a
distinguished internal error, and every theorem below either supplies ample
fuel or concerns behavior before any recursive descent.  The group's
history-store append (whose failure path pops the stack exactly like any
other group failure) is treated as succeeding, and parallel threads' events
are concatenated in spawn order (their interleaving is unobservable in the
claims below). -/

/-- Rust `app_error.rs`: `AppError` as exit code plus message. -/
structure AppError where
  code : Int
  message : String
deriving DecidableEq, Repr

/-- Rust `AppError::usage`. -/
def AppError.usage (message : String) : AppError := ⟨2, message⟩

/-- Rust `AppError::runtime`. -/
def AppError.runtime (message : String) : AppError := ⟨1, message⟩

/-- Rust `AppError::internal`. -/
def AppError.internal (message : String) : AppError := ⟨3, message⟩

/-- Instrumentation events: task resolution and leaf execution (the only
path that can spawn a child process). -/
inductive Event where
  | resolve (name : String)
  | leafRun (name : String)
deriving DecidableEq, Repr

/-- Whether an event is a leaf execution (a child-process spawn site). -/
def Event.isLeafRun : Event → Bool
  | .leafRun _ => true
  | .resolve _ => false

/-- Rust `cli/mod.rs` lines 369-377: the sequential child loop of
`execute_task_group` — run each child in order through `runChild`, stop at
the first failure, recording it as `"{child}: {err}"`.  Returns the failure
(if any), the stack as left by the children, and the events. -/
def seqChildren
    (runChild : String → List String → Except AppError Unit × List String × List Event) :
    List String → List String → Option String × List String × List Event
  | [], stack => (none, stack, [])
  | c :: rest, stack =>
      match runChild c stack with
      | (.ok _, stack', ev) =>
          let (f, stack'', ev') := seqChildren runChild rest stack'
          (f, stack'', ev ++ ev')
      | (.error e, stack', ev) => (some (c ++ ": " ++ e.message), stack', ev)

/-- Rust `cli/mod.rs` lines 340-367: the parallel fan-out of `execute_task_group`
— every child runs against its own clone of the stack; the parent's stack is
untouched.  Failures are collected in join (= spawn) order as
`"{child}: {err}"`. -/
def parChildren
    (runChild : String → List String → Except AppError Unit × List String × List Event)
    (children : List String) (stack : List String) : List String × List Event :=
  let results := children.map fun c => (c, runChild c stack)
  (results.filterMap fun p =>
      match p.2.1 with
      | .ok _ => none
      | .error e => some (p.1 ++ ": " ++ e.message),
   (results.map fun p => p.2.2.2).flatten)

/-- Rust `cli/mod.rs` lines 380-452: aggregate a group's child failures — success
iff no child failed, otherwise a runtime error joining the failures with
`"; "` — and pop the group's own name off the stack. -/
def groupOutcome (task_name : String) (failures : List String)
    (stack2 : List String) (evs : List Event) :
    Except AppError Unit × List String × List Event :=
  (if failures = [] then .ok ()
   else .error (.runtime (String.intercalate "; " failures)),
   stack2.dropLast, .resolve task_name :: evs)

/-- Rust `cli/mod.rs` lines 282-319 (`run_named_task`) together with lines 321-453
(`execute_task_group`), fused into one fuel-indexed function.  Returns the
result, the stack as observed by the caller after the call, and the event
trace.  Note the translation of lines 300-301: `stack.push(...)` followed by
`cfg.resolve_task(...)?` — the `?` returns *without* executing the
`stack.pop()` at line 317. -/
def run_named_task (parseDur : String → Option Nat)
    (oracle : String → Except AppError Unit) (cfg : Config) :
    Nat → String → Bool → List String →
    Except AppError Unit × List String × List Event
  | 0, task_name, _, stack =>
    match stack.findIdx? (· = task_name) with
    | some index =>
        (.error (.usage ("task dependency cycle: "
            ++ String.intercalate " -> " (stack.drop index ++ [task_name]))),
         stack, [])
    | none => (.error (.internal "model: recursion fuel exhausted"), stack, [])
  | fuel + 1, task_name, as_json, stack =>
    match stack.findIdx? (· = task_name) with
    | some index =>
        (.error (.usage ("task dependency cycle: "
            ++ String.intercalate " -> " (stack.drop index ++ [task_name]))),
         stack, [])
    | none =>
        let stack1 := stack ++ [task_name]
        match cfg.resolve_task parseDur task_name with
        | .error e => (.error (.usage e), stack1, [.resolve task_name])
        | .ok resolved =>
          if resolved.sub_tasks = [] then
            (oracle task_name, stack1.dropLast,
             [.resolve task_name, .leafRun task_name])
          else if as_json then
            (.error (.usage "--json is not supported for composed tasks yet"),
             stack1.dropLast, [.resolve task_name])
          else if resolved.parallel then
            let pr := parChildren
              (fun c st => run_named_task parseDur oracle cfg fuel c false st)
              resolved.sub_tasks stack1
            groupOutcome task_name pr.1 stack1 pr.2
          else
            let sr := seqChildren
              (fun c st => run_named_task parseDur oracle cfg fuel c false st)
              resolved.sub_tasks stack1
            groupOutcome task_name sr.1.toList sr.2.1 sr.2.2

/-! ## `cli/mod.rs`: `expand_variables`

`expand_variables` walks `value.as_bytes()` by index, so the model works on
the UTF-8 byte sequences of the Rust strings: a string is a `List Nat` of
bytes.  Literal bytes are emitted through `out.push(bytes[i] as char)`, which
interprets each byte as a Unicode code point, so a byte `b ≥ 0x80` lands in
the output as the two-byte UTF-8 encoding of `U+00b` — captured by
`utf8Byte`.  Resolved values and unresolved `${key}` renderings are appended
with `push_str`, i.e. byte-for-byte. -/

/-- UTF-8 encoding of one Unicode scalar value. -/
def charUtf8 (c : Char) : List Nat :=
  let n := c.toNat
  if n < 0x80 then [n]
  else if n < 0x800 then [0xC0 + n / 0x40, 0x80 + n % 0x40]
  else if n < 0x10000 then
    [0xE0 + n / 0x1000, 0x80 + (n / 0x40) % 0x40, 0x80 + n % 0x40]
  else
    [0xF0 + n / 0x40000, 0x80 + (n / 0x1000) % 0x40,
     0x80 + (n / 0x40) % 0x40, 0x80 + n % 0x40]

/-- The UTF-8 bytes of a Lean string (how a Rust `String` is laid out). -/
def strBytes (s : String) : List Nat :=
  (s.data.map charUtf8).flatten

/-- Rust `char::is_ascii_alphabetic(c) || c == '_'` on a byte viewed as a char. -/
def isIdentStart (b : Nat) : Bool :=
  (65 ≤ b && b ≤ 90) || (97 ≤ b && b ≤ 122) || b = 95

/-- Rust `char::is_ascii_alphanumeric(c) || c == '_'` on a byte viewed as a char. -/
def isIdentByte (b : Nat) : Bool :=
  isIdentStart b || (48 ≤ b && b ≤ 57)

/-- Rust `String::push(b as char)`: the UTF-8 bytes a byte-as-code-point push
appends (for `b < 256`). -/
def utf8Byte (b : Nat) : List Nat :=
  if b < 128 then [b] else [192 + b / 64, 128 + b % 64]

/-- Rust `str::find(t)` followed by slicing: `some (before, after)` around the
first occurrence of byte `t`, `none` when `t` does not occur. -/
def splitAtByte (t : Nat) : List Nat → Option (List Nat × List Nat)
  | [] => none
  | b :: bs =>
      if b = t then some ([], bs)
      else
        match splitAtByte t bs with
        | some (pre, post) => some (b :: pre, post)
        | none => none

theorem splitAtByte_length {t : Nat} {l pre post : List Nat}
    (h : splitAtByte t l = some (pre, post)) : post.length < l.length := by
  induction l generalizing pre post with
  | nil => simp [splitAtByte] at h
  | cons b bs ih =>
    rw [splitAtByte] at h
    by_cases hb : b = t
    · rw [if_pos hb] at h
      simp only [Option.some.injEq, Prod.mk.injEq] at h
      obtain ⟨-, h2⟩ := h
      subst h2
      simp
    · rw [if_neg hb] at h
      cases hsp : splitAtByte t bs with
      | none => rw [hsp] at h; cases h
      | some p =>
        obtain ⟨pre', post'⟩ := p
        rw [hsp] at h
        simp only [Option.some.injEq, Prod.mk.injEq] at h
        obtain ⟨-, h2⟩ := h
        subst h2
        have := ih hsp
        simp only [List.length_cons]
        omega

/-- Auxiliary: `dropWhile` never lengthens a list. -/
theorem dropWhile_length_le (p : α → Bool) (l : List α) :
    (l.dropWhile p).length ≤ l.length := by
  induction l with
  | nil => simp
  | cons a l ih =>
    cases h : p a with
    | true =>
        simp only [List.dropWhile, h]
        exact Nat.le_trans ih (by simp)
    | false => simp [List.dropWhile, h]

/-- First-match lookup in a byte-string association list
(`HashMap<String, String>::get`). -/
def lookupB (m : List (List Nat × List Nat)) (k : List Nat) : Option (List Nat) :=
  match m with
  | [] => none
  | (k', v) :: rest => if k' = k then some v else lookupB rest k

/-- Rust `cli/mod.rs` lines 711-775: `expand_variables(value, lookup)`, translated
over the byte sequence of `value`.  The loop index `i` becomes recursion on
the unprocessed suffix; every step strictly shortens the suffix, so the
recursion is driven by a `fuel` counter that any bound on the input length
satisfies (see `expandVars`). -/
def expandVarsGo (lookup : List (List Nat × List Nat)) :
    Nat → List Nat → List Nat
  | 0, _ => []
  | _, [] => []
  | fuel + 1, b :: rest =>
    if b = 36 then
      match rest with
      | [] => [36]
      | c :: rest2 =>
        if c = 123 then
          match splitAtByte 125 rest2 with
          | some (key, after) =>
              (match lookupB lookup key with
               | some v => v
               | none => 36 :: 123 :: (key ++ [125]))
                ++ expandVarsGo lookup fuel after
          | none => 36 :: expandVarsGo lookup fuel (c :: rest2)
        else if isIdentStart c then
          (match lookupB lookup (c :: rest2.takeWhile isIdentByte) with
           | some v => v
           | none => 36 :: 123 :: ((c :: rest2.takeWhile isIdentByte) ++ [125]))
            ++ expandVarsGo lookup fuel (rest2.dropWhile isIdentByte)
        else 36 :: expandVarsGo lookup fuel (c :: rest2)
    else utf8Byte b ++ expandVarsGo lookup fuel rest

/-- Rust `expand_variables(value, lookup)`: run the scanner with enough fuel to
process the whole input. -/
def expandVars (lookup : List (List Nat × List Nat)) (value : List Nat) :
    List Nat :=
  expandVarsGo lookup value.length value

/-! ### Spec-side reading of the scanner (for the refinement theorem)

The claim describes expansion reference-by-reference; the following
decomposition follows the spec's words: the input splits into literal bytes
and variable references (`$NAME` with `NAME` an identifier
`[A-Za-z_][A-Za-z0-9_]*` taken maximally, or `${NAME}` with `NAME` delimited
by the first `}`); rendering substitutes a resolved reference with exactly
its value and leaves an unresolved one in canonical `${NAME}` form, never
failing and never dropping a reference. -/

/-- One unit of the scanned input: a literal byte or a variable reference. -/
inductive VarTok where
  | lit (b : Nat)
  | ref (key : List Nat)
deriving DecidableEq, Repr

/-- Spec-side scanner: split the input into literal bytes and `$NAME` /
`${NAME}` references (a `$` that opens no reference — at end of input,
before a non-identifier byte, or starting an unterminated `${` — stays a
literal byte). -/
def tokenizeGo : Nat → List Nat → List VarTok
  | 0, _ => []
  | _, [] => []
  | fuel + 1, b :: rest =>
    if b = 36 then
      match rest with
      | [] => [.lit 36]
      | c :: rest2 =>
        if c = 123 then
          match splitAtByte 125 rest2 with
          | some (key, after) => .ref key :: tokenizeGo fuel after
          | none => .lit 36 :: tokenizeGo fuel (c :: rest2)
        else if isIdentStart c then
          .ref (c :: rest2.takeWhile isIdentByte)
            :: tokenizeGo fuel (rest2.dropWhile isIdentByte)
        else .lit 36 :: tokenizeGo fuel (c :: rest2)
    else .lit b :: tokenizeGo fuel rest

/-- The scanner run with enough fuel to process the whole input. -/
def tokenize (value : List Nat) : List VarTok :=
  tokenizeGo value.length value

/-- Spec-side rendering of one token: a resolved reference becomes exactly
its value, an unresolved one stays in canonical `${NAME}` form, a literal
byte is emitted (as the code's `push(b as char)` writes it). -/
def renderTok (lookup : List (List Nat × List Nat)) : VarTok → List Nat
  | .lit b => utf8Byte b
  | .ref key =>
      match lookupB lookup key with
      | some v => v
      | none => 36 :: 123 :: (key ++ [125])

/-- Spec-side rendering of a whole token list: every token is rendered, none
is dropped. -/
def renderToks (lookup : List (List Nat × List Nat)) (toks : List VarTok) :
    List Nat :=
  (toks.map (renderTok lookup)).flatten

/-! ## `cli/mod.rs`: `apply_runtime_env`

Byte-level model of lines 666-709.  `HashMap`s are association lists whose
first match wins, so `HashMap::insert` prepends a binding (shadowing any old
one).  `std::env::vars()` is a parameter `procEnv`.  The source first builds
the pair (`runtime_env`, `lookup`) — translated as `build_runtime_env` —
then expands `dir`, the shell string or the exec tokens against `lookup`,
and finally replaces the task's `env` with `runtime_env`. -/

/-- Rust `HashMap::insert`: the new binding shadows any previous one. -/
def insertB (m : List (List Nat × List Nat)) (k v : List Nat) :
    List (List Nat × List Nat) :=
  (k, v) :: m

/-- Rust `HashMap::contains_key`. -/
def containsKeyB (m : List (List Nat × List Nat)) (k : List Nat) : Bool :=
  (lookupB m k).isSome

/-- Rust `String` ordering: lexicographic on bytes (`Ord for str`). -/
def bytesLe : List Nat → List Nat → Bool
  | [], _ => true
  | _ :: _, [] => false
  | a :: as, b :: bs => if a < b then true else if a = b then bytesLe as bs else false

/-- Insert a key into a `bytesLe`-sorted list (stable). -/
def insertSorted (k : List Nat) : List (List Nat) → List (List Nat)
  | [] => [k]
  | x :: xs => if bytesLe k x then k :: x :: xs else x :: insertSorted k xs

/-- Rust `Vec::sort()` on strings: sorted in lexicographic byte order.  (Stable
insertion sort; on the distinct keys of a `HashMap` any correct sort yields
this list.) -/
def sortKeys (l : List (List Nat)) : List (List Nat) :=
  l.foldr insertSorted []

/-- The fields of `ResolvedTask` that `apply_runtime_env` reads or writes,
as UTF-8 byte strings. -/
structure EnvTask where
  use_shell : Bool
  exec : List (List Nat)
  shell : List Nat
  dir : List Nat
  env : List (List Nat × List Nat)
  command_preview : List Nat
deriving DecidableEq, Repr

/-- Rust `cli/mod.rs` lines 666-689: build the `(runtime_env, lookup)` pair —
start the lookup from the process environment, add each dotenv binding only
when its key is not already present, then walk the task's own `env` keys in
sorted order, expanding each value against the lookup built so far and
inserting the result into both maps before the next key is processed. -/
def build_runtime_env (procEnv dotenv_vars taskEnv :
    List (List Nat × List Nat)) :
    List (List Nat × List Nat) × List (List Nat × List Nat) :=
  let p1 := dotenv_vars.foldl
    (fun acc kv =>
      if containsKeyB acc.2 kv.1 then acc
      else (insertB acc.1 kv.1 kv.2, insertB acc.2 kv.1 kv.2))
    (([] : List (List Nat × List Nat)), procEnv)
  if taskEnv = [] then p1
  else
    (sortKeys (taskEnv.map (·.1))).foldl
      (fun acc k =>
        match lookupB taskEnv k with
        | some value =>
            let expanded := expandVars acc.2 value
            (insertB acc.1 k expanded, insertB acc.2 k expanded)
        | none => acc)
      p1

/-- Rust `join(" ")` over byte strings (`expanded.join(" ")`). -/
def joinSpaceBytes : List (List Nat) → List Nat
  | [] => []
  | [x] => x
  | x :: rest => x ++ 32 :: joinSpaceBytes rest

/-- Rust `cli/mod.rs` lines 666-709: `apply_runtime_env(resolved, dotenv_vars)`,
with the process environment as the `procEnv` parameter. -/
def apply_runtime_env (procEnv dotenv_vars : List (List Nat × List Nat))
    (t : EnvTask) : EnvTask :=
  let built := build_runtime_env procEnv dotenv_vars t.env
  let dir := if t.dir = [] then t.dir else expandVars built.2 t.dir
  if t.use_shell then
    { t with
      shell := expandVars built.2 t.shell
      command_preview := expandVars built.2 t.shell
      dir := dir
      env := built.1 }
  else if t.exec ≠ [] then
    let expanded := t.exec.map (expandVars built.2)
    { t with
      exec := expanded
      command_preview := joinSpaceBytes expanded
      dir := dir
      env := built.1 }
  else
    { t with dir := dir, env := built.1 }

/-- Spec-side reading of the layered lookup, following the spec's words:
the process environment first; then the dotenv-file bindings restricted to
keys absent from the process environment; then the task's own `env` map
applied in key-sorted order, each key's expanded value inserted into the
lookup before the next key is expanded. -/
def specLayeredLookup (procEnv dotenv_vars taskEnv :
    List (List Nat × List Nat)) : List (List Nat × List Nat) :=
  let base := procEnv
    ++ dotenv_vars.filter (fun kv => !containsKeyB procEnv kv.1)
  (sortKeys (taskEnv.map (·.1))).foldl
    (fun l k =>
      match lookupB taskEnv k with
      | some value => insertB l k (expandVars l value)
      | none => l)
    base

/-! ## `cli/mod.rs`: `should_notify` -/

/-- Rust `cli/mod.rs` lines 787-793: `should_notify(policy, status)`.  The Rust
`match` tries `"never"`, then `"always"`, then the catch-all arm. -/
def should_notify (policy : String) (status : RunStatus) : Bool :=
  if policy = "never" then false
  else if policy = "always" then true
  else status = .Failed


/-! # Theorems -/

section Theorems

/-! ## C10: `should_notify` -/

/-- C10: For every run status, the notification policy check returns
`false` for policy `"never"` and `true` for policy `"always"`; for every
other policy string — any unrecognized value included — it returns `true`
iff the status is `Failed`, so an invalid policy behaves like `"failure"`. -/
theorem should_notify_policy (policy : String) (status : RunStatus) :
    should_notify "never" status = false ∧
    should_notify "always" status = true ∧
    (policy ≠ "never" → policy ≠ "always" →
      (should_notify policy status = true ↔ status = .Failed)) := by
  refine ⟨by cases status <;> decide, by cases status <;> decide, ?_⟩
  intro h1 h2
  unfold should_notify
  rw [if_neg h1, if_neg h2]
  cases status <;> simp

/-- Witness for `should_notify_policy` at the unrecognized policy
`"sometimes"`. -/
theorem should_notify_policy_witness :
    should_notify "sometimes" RunStatus.Failed = true :=
  ((should_notify_policy "sometimes" RunStatus.Failed).2.2
    (by decide) (by decide)).mpr rfl

/-! ## C9: `tail` -/

/-- The code's guarded `drop` is exactly "keep the last `n` elements". -/
theorem drop_if_length (l : List α) (n : Nat) :
    (if l.length > n then l.drop (l.length - n) else l) = takeRight n l := by
  unfold takeRight
  split_ifs with h
  · rfl
  · have hz : l.length - n = 0 := by omega
    rw [hz, List.drop_zero]

/-- Rust `tail` in closed form: trim trailing newlines, keep the last
`line_limit` lines, then keep the last `char_limit` characters. -/
theorem tail_eq_takeRight (input : String) (l c : Nat) :
    tail input l c =
      if trimEndNl input.data = [] then none
      else some ⟨takeRight c (joinNl (takeRight l (rustLines (trimEndNl input.data))))⟩ := by
  unfold tail
  by_cases h0 : input = ""
  · subst h0
    have hd : ("" : String).data = [] := rfl
    simp [hd, trimEndNl]
  · rw [if_neg h0]
    by_cases ht : trimEndNl input.data = []
    · simp [ht]
    · simp only [ht, if_neg, ite_false, drop_if_length]

/-- C9: `tail(input, lineLimit, charLimit)` retains the last `lineLimit`
lines of the input (after trimming trailing newlines) and then at most the
last `charLimit` characters, dropping the oldest; in particular
`tail "a\nb\nc\nd\ne\nf" 3 10 = "d\ne\nf"`, and at the production limits
(10 lines, 1400 characters) a 12-line input keeps its last 10 lines. -/
theorem tail_keeps_last_lines_then_chars :
    (∀ input l c, tail input l c =
      if trimEndNl input.data = [] then none
      else some ⟨takeRight c (joinNl (takeRight l (rustLines (trimEndNl input.data))))⟩) ∧
    tail "a\nb\nc\nd\ne\nf" 3 10 = some "d\ne\nf" ∧
    tail "a\nb\nc\nd\ne\nf\ng\nh\ni\nj\nk\nl" 10 1400
      = some "c\nd\ne\nf\ng\nh\ni\nj\nk\nl" :=
  ⟨tail_eq_takeRight, by decide, by decide⟩

/-! ## C5: `execute` rejects invalid configurations -/

/-- C5: A request with negative retries, or whose selected mode has a
missing/empty command (shell mode with blank shell string, exec mode with an
empty argument vector), is rejected immediately as a configuration error
with exit code 127 and status `Failed`, with no attempt run and no back-off
sleep performed. -/
theorem execute_rejects_bad_config (runOnce : Nat → RunOnceOutcome)
    (req : Request)
    (h : req.retries < 0 ∨ (req.use_shell ∧ req.shell.trim = "")
        ∨ (¬req.use_shell ∧ req.exec = [])) :
    ∃ msg, execute runOnce req = (.error ⟨⟨127, .Failed, none⟩, msg⟩, [], 0) := by
  unfold execute
  split_ifs with h1 h2 h3
  · exact ⟨_, rfl⟩
  · exact ⟨_, rfl⟩
  · exact ⟨_, rfl⟩
  · rcases h with h | h | h
    · exact absurd h h1
    · exact absurd h h2
    · exact absurd h h3

/-- Witness for `execute_rejects_bad_config`: `retries = -1`. -/
theorem execute_rejects_bad_config_witness :
    ∃ msg, execute (fun _ => .ok 0 none)
        ⟨false, ["x"], "", -1, 0⟩ = (.error ⟨⟨127, .Failed, none⟩, msg⟩, [], 0) :=
  execute_rejects_bad_config (fun _ => .ok 0 none)
    ⟨false, ["x"], "", -1, 0⟩ (Or.inl (by decide))

/-! ## C4 / C1: the retry loop -/

/-- Auxiliary: shifting the index under a range-map. -/
theorem range_map_shift (f : Nat → α) (i k : Nat) :
    (List.range (k + 1)).map (fun j => f (i + j))
      = f i :: (List.range k).map (fun j => f (i + 1 + j)) := by
  rw [List.range_succ_eq_map, List.map_cons, List.map_map]
  have hc : ((fun j => f (i + j)) ∘ Nat.succ) = fun j => f (i + 1 + j) := by
    funext j
    show f (i + (j + 1)) = f (i + 1 + j)
    congr 1
    omega
  rw [hc, Nat.add_zero]

/-- The retry loop never performs more attempts than it is given. -/
theorem runAttempts_used_le (runOnce : Nat → RunOnceOutcome) (backoff : Nat) :
    ∀ remaining i le ls lerr,
      (runAttempts runOnce backoff i remaining le ls lerr).2.2 ≤ remaining := by
  intro remaining
  induction remaining with
  | zero => intro i le ls lerr; simp [runAttempts]
  | succ r ih =>
    intro i le ls lerr
    simp only [runAttempts]
    cases runOnce i with
    | ok code tail => simp
    | fail code tail err => simpa using ih (i + 1) code tail err
    | spawnErr err => simpa using ih (i + 1) 127 none err

/-- If the first `k` attempts fail and attempt `k` succeeds (with `k` inside
the budget), the loop returns that attempt's success result after exactly
`k + 1` attempts, having slept once after each of the `k` failures. -/
theorem runAttempts_first_success (runOnce : Nat → RunOnceOutcome)
    (backoff : Nat) :
    ∀ k i remaining le ls lerr, k < remaining →
      (∀ j, j < k → (runOnce (i + j)).isOk = false) →
      (runOnce (i + k)).isOk = true →
      runAttempts runOnce backoff i remaining le ls lerr =
        (.ok ⟨(runOnce (i + k)).exitOf, .Success, (runOnce (i + k)).stderrOf⟩,
         (List.range k).map (fun j => backoffDelay backoff (i + j)),
         k + 1) := by
  intro k
  induction k with
  | zero =>
    intro i remaining le ls lerr hk _ hok
    match remaining, hk with
    | r + 1, _ =>
      rw [Nat.add_zero] at hok
      cases ho : runOnce i with
      | ok code tail =>
          simp [runAttempts, ho, RunOnceOutcome.exitOf, RunOnceOutcome.stderrOf]
      | fail code tail err =>
          rw [ho] at hok; simp [RunOnceOutcome.isOk] at hok
      | spawnErr err =>
          rw [ho] at hok; simp [RunOnceOutcome.isOk] at hok
  | succ k ih =>
    intro i remaining le ls lerr hk hfail hok
    match remaining, hk with
    | r + 1, _ =>
      have hshift : ∀ j, j < k → (runOnce (i + 1 + j)).isOk = false := by
        intro j hj
        have := hfail (j + 1) (by omega)
        rwa [show i + (j + 1) = i + 1 + j by omega] at this
      have hok' : (runOnce (i + 1 + k)).isOk = true := by
        rwa [show i + (k + 1) = i + 1 + k by omega] at hok
      have hkr : k < r := by omega
      have h0 : (runOnce i).isOk = false := by simpa using hfail 0 (by omega)
      have hpos : 0 < r := by omega
      cases ho : runOnce i with
      | ok code tail => rw [ho] at h0; simp [RunOnceOutcome.isOk] at h0
      | fail code tail err =>
          simp only [runAttempts, ho]
          rw [ih (i + 1) r code tail err hkr hshift hok']
          simp only [hpos, if_pos]
          rw [show i + (k + 1) = i + 1 + k by omega,
            range_map_shift (fun j => backoffDelay backoff j) i k]
          simp
      | spawnErr err =>
          simp only [runAttempts, ho]
          rw [ih (i + 1) r 127 none err hkr hshift hok']
          simp only [hpos, if_pos]
          rw [show i + (k + 1) = i + 1 + k by omega,
            range_map_shift (fun j => backoffDelay backoff j) i k]
          simp

/-- If every attempt in the budget fails, the loop returns a failure carrying
exactly the last attempt's exit code, stderr tail, and error message, after
consuming the whole budget, having slept once after every attempt but the
last. -/
theorem runAttempts_all_fail (runOnce : Nat → RunOnceOutcome) (backoff : Nat) :
    ∀ remaining i le ls lerr, 0 < remaining →
      (∀ j, j < remaining → (runOnce (i + j)).isOk = false) →
      runAttempts runOnce backoff i remaining le ls lerr =
        (.error ⟨⟨(runOnce (i + (remaining - 1))).exitOf, .Failed,
                  (runOnce (i + (remaining - 1))).stderrOf⟩,
                 (runOnce (i + (remaining - 1))).errOf⟩,
         (List.range (remaining - 1)).map (fun j => backoffDelay backoff (i + j)),
         remaining) := by
  intro remaining
  induction remaining with
  | zero => intro i le ls lerr h; omega
  | succ r ih =>
    intro i le ls lerr _ hall
    have h0 : (runOnce i).isOk = false := by simpa using hall 0 (by omega)
    have hshift : ∀ j, j < r → (runOnce (i + 1 + j)).isOk = false := by
      intro j hj
      have := hall (j + 1) (by omega)
      rwa [show i + (j + 1) = i + 1 + j by omega] at this
    cases ho : runOnce i with
    | ok code tail => rw [ho] at h0; simp [RunOnceOutcome.isOk] at h0
    | fail code tail err =>
      simp only [runAttempts, ho]
      rcases Nat.eq_zero_or_pos r with hr | hr
      · subst hr
        simp [runAttempts, ho, RunOnceOutcome.exitOf, RunOnceOutcome.stderrOf,
          RunOnceOutcome.errOf]
      · rw [ih (i + 1) code tail err hr hshift]
        simp only [hr, if_pos]
        rw [show i + 1 + (r - 1) = i + (r + 1 - 1) by omega]
        rw [show r + 1 - 1 = (r - 1) + 1 by omega,
          range_map_shift (fun j => backoffDelay backoff j) i (r - 1)]
        simp
    | spawnErr err =>
      simp only [runAttempts, ho]
      rcases Nat.eq_zero_or_pos r with hr | hr
      · subst hr
        simp [runAttempts, ho, RunOnceOutcome.exitOf, RunOnceOutcome.stderrOf,
          RunOnceOutcome.errOf]
      · rw [ih (i + 1) 127 none err hr hshift]
        simp only [hr, if_pos]
        rw [show i + 1 + (r - 1) = i + (r + 1 - 1) by omega]
        rw [show r + 1 - 1 = (r - 1) + 1 by omega,
          range_map_shift (fun j => backoffDelay backoff j) i (r - 1)]
        simp

/-- Rust `execute` on a well-formed request is the retry loop over
`attempts = retries + 1` with the normalized backoff. -/
theorem execute_valid_eq (runOnce : Nat → RunOnceOutcome) (req : Request)
    (h1 : ¬req.retries < 0)
    (h2 : ¬(req.use_shell ∧ req.shell.trim = ""))
    (h3 : ¬(¬req.use_shell ∧ req.exec = [])) :
    execute runOnce req =
      runAttempts runOnce (normBackoff req.retry_backoff)
        0 (req.retries + 1).toNat 0 none "" := by
  unfold execute
  rw [if_neg h1, if_neg h2, if_neg h3]

/-- Each performed sleep is the checked product `backoff * 2^i`, replaced by
sixty seconds exactly when the multiplication overflows the duration type. -/
theorem sleep_delay_characterization (nb m i d : Nat)
    (hd : ((List.range m).map (fun j => backoffDelay nb (0 + j)))[i]? = some d) :
    (nb * 2 ^ i ≤ durationMax → d = nb * 2 ^ i) ∧
    (durationMax < nb * 2 ^ i → d = sixtySeconds) := by
  rw [List.getElem?_map] at hd
  by_cases him : i < m
  · rw [List.getElem?_range him] at hd
    simp only [Option.map_some', Option.some.injEq, Nat.zero_add] at hd
    constructor
    · intro hle
      rw [← hd]
      unfold backoffDelay checkedMul
      rw [if_pos hle]
      rfl
    · intro hlt
      rw [← hd]
      unfold backoffDelay checkedMul
      rw [if_neg (by omega)]
      rfl
  · rw [List.getElem?_eq_none (by simpa using Nat.le_of_not_lt him)] at hd
    simp at hd

/-- C4: For every well-formed request (`retries ∈ [0,10]`, non-empty
command in the selected mode), `execute` performs at most `retries + 1`
attempts; the first successful attempt short-circuits and returns `Success`
built from that attempt; and if every attempt fails, the returned failure
carries exactly the last attempt's exit code, stderr tail and error message
(a spawn-level error contributing 127 / no tail), all earlier attempts'
diagnostics being discarded. -/
theorem execute_attempts_and_last_diagnostics
    (runOnce : Nat → RunOnceOutcome) (req : Request)
    (h0 : 0 ≤ req.retries) (h10 : req.retries ≤ 10)
    (hsh : req.use_shell = true → req.shell.trim ≠ "")
    (hex : ¬req.use_shell = true → req.exec ≠ []) :
    (execute runOnce req).2.2 ≤ (req.retries + 1).toNat ∧
    (∀ k, k < (req.retries + 1).toNat →
      (∀ j, j < k → (runOnce j).isOk = false) →
      (runOnce k).isOk = true →
      execute runOnce req =
        (.ok ⟨(runOnce k).exitOf, .Success, (runOnce k).stderrOf⟩,
         (List.range k).map (backoffDelay (normBackoff req.retry_backoff)),
         k + 1)) ∧
    ((∀ j, j < (req.retries + 1).toNat → (runOnce j).isOk = false) →
      execute runOnce req =
        (.error ⟨⟨(runOnce req.retries.toNat).exitOf, .Failed,
                  (runOnce req.retries.toNat).stderrOf⟩,
                 (runOnce req.retries.toNat).errOf⟩,
         (List.range req.retries.toNat).map
           (backoffDelay (normBackoff req.retry_backoff)),
         (req.retries + 1).toNat)) := by
  have h1 : ¬req.retries < 0 := by omega
  have h2 : ¬(req.use_shell ∧ req.shell.trim = "") := fun h => hsh h.1 h.2
  have h3 : ¬(¬req.use_shell ∧ req.exec = []) := fun h => hex h.1 h.2
  have he := execute_valid_eq runOnce req h1 h2 h3
  refine ⟨?_, ?_, ?_⟩
  · rw [he]
    exact runAttempts_used_le runOnce _ _ 0 0 none ""
  · intro k hk hfail hok
    rw [he,
      runAttempts_first_success runOnce (normBackoff req.retry_backoff) k 0
        (req.retries + 1).toNat 0 none "" hk (by simpa using hfail)
        (by simpa using hok)]
    simp
  · intro hall
    have hApos : 0 < (req.retries + 1).toNat := by omega
    rw [he,
      runAttempts_all_fail runOnce (normBackoff req.retry_backoff)
        (req.retries + 1).toNat 0 0 none "" hApos (by simpa using hall)]
    have hsub : (req.retries + 1).toNat - 1 = req.retries.toNat := by omega
    simp [hsub]

/-- Witness for `execute_attempts_and_last_diagnostics`: with `retries = 1`,
a first attempt failing with exit 5 and a second succeeding, `execute`
returns the second attempt's success after one one-second back-off sleep. -/
theorem execute_attempts_and_last_diagnostics_witness :
    execute
      (fun n => if n = 0 then RunOnceOutcome.fail 5 (some "e0") "m0"
                else RunOnceOutcome.ok 0 (some "t1"))
      ⟨false, ["x"], "", 1, 0⟩ =
      (.ok ⟨0, .Success, some "t1"⟩, [1000000000], 2) := by
  have h := (execute_attempts_and_last_diagnostics
      (fun n => if n = 0 then RunOnceOutcome.fail 5 (some "e0") "m0"
                else RunOnceOutcome.ok 0 (some "t1"))
      ⟨false, ["x"], "", 1, 0⟩
      (by decide) (by decide) (by intro h; simp at h) (fun _ => by decide)).2.1
      1 (by decide)
      (by intro j hj; have hj0 : j = 0 := (by omega); rw [hj0]; decide)
      (by decide)
  exact h.trans (by rfl)

/-! ## C1: back-off delays -/

/-- C1 counterexample to the claimed 60-second cap: For the valid request with
`retries = 7`, non-empty exec command and one-second backoff, and every
attempt failing, all 8 attempts run and the sleep after failing attempt 6
(not the last attempt) is `1s * 2^6 = 64s`, strictly above the claimed
60-second ceiling. -/
theorem backoff_exceeds_sixty_seconds :
    (execute (fun _ => .fail 1 none "command failed with exit code 1")
        ⟨false, ["x"], "", 7, oneSecond⟩).2.2 = 8 ∧
    (execute (fun _ => .fail 1 none "command failed with exit code 1")
        ⟨false, ["x"], "", 7, oneSecond⟩).2.1[6]? = some (64 * 1000000000) ∧
    60 * 1000000000 < 64 * 1000000000 := by
  refine ⟨by decide, by decide, by decide⟩

/-- C1 amended: For every well-formed request, one sleep is performed
after every failed attempt except the last (none after the final attempt),
and the sleep before attempt `i + 1` equals `retryBackoff * 2^i` (with zero
backoff normalized to one second) whenever that product is representable as
a duration; only when the multiplication overflows is the delay saturated —
to sixty seconds — so delays are not otherwise capped at sixty seconds. -/
theorem backoff_delays_are_checked_doubling
    (runOnce : Nat → RunOnceOutcome) (req : Request)
    (h0 : 0 ≤ req.retries) (h10 : req.retries ≤ 10)
    (hsh : req.use_shell = true → req.shell.trim ≠ "")
    (hex : ¬req.use_shell = true → req.exec ≠ []) :
    (execute runOnce req).2.1.length + 1 = (execute runOnce req).2.2 ∧
    (execute runOnce req).2.1.length ≤ req.retries.toNat ∧
    (∀ i d, (execute runOnce req).2.1[i]? = some d →
      (normBackoff req.retry_backoff * 2 ^ i ≤ durationMax →
        d = normBackoff req.retry_backoff * 2 ^ i) ∧
      (durationMax < normBackoff req.retry_backoff * 2 ^ i →
        d = sixtySeconds)) := by
  classical
  have h1 : ¬req.retries < 0 := by omega
  have h2 : ¬(req.use_shell ∧ req.shell.trim = "") := fun h => hsh h.1 h.2
  have h3 : ¬(¬req.use_shell ∧ req.exec = []) := fun h => hex h.1 h.2
  have he := execute_valid_eq runOnce req h1 h2 h3
  have hApos : 0 < (req.retries + 1).toNat := by omega
  by_cases hexk : ∃ k, k < (req.retries + 1).toNat ∧ (runOnce k).isOk = true
  · have hk := Nat.find_spec hexk
    have hfail : ∀ j, j < Nat.find hexk → (runOnce j).isOk = false := by
      intro j hj
      have hmin := Nat.find_min hexk hj
      have hjA : j < (req.retries + 1).toNat := lt_trans hj hk.1
      simpa [hjA] using hmin
    have hrun := runAttempts_first_success runOnce
      (normBackoff req.retry_backoff) (Nat.find hexk) 0
      (req.retries + 1).toNat 0 none "" hk.1 (by simpa using hfail)
      (by simpa using hk.2)
    rw [he, hrun]
    refine ⟨by simp, ?_, ?_⟩
    · simp only [List.length_map, List.length_range]
      have := hk.1
      omega
    · intro i d hd
      exact sleep_delay_characterization _ _ i d hd
  · push_neg at hexk
    have hall : ∀ j, j < (req.retries + 1).toNat → (runOnce j).isOk = false := by
      intro j hj
      simpa using hexk j hj
    have hrun := runAttempts_all_fail runOnce (normBackoff req.retry_backoff)
      (req.retries + 1).toNat 0 0 none "" hApos (by simpa using hall)
    rw [he, hrun]
    refine ⟨?_, ?_, ?_⟩
    · simp only [List.length_map, List.length_range]
      omega
    · simp only [List.length_map, List.length_range]
      omega
    · intro i d hd
      exact sleep_delay_characterization _ _ i d hd

/-- Witness for `backoff_delays_are_checked_doubling`: `retries = 2`, every
attempt failing. -/
theorem backoff_delays_are_checked_doubling_witness :
    (execute (fun _ => .fail 1 none "m") ⟨false, ["x"], "", 2, 0⟩).2.1.length + 1
      = (execute (fun _ => .fail 1 none "m") ⟨false, ["x"], "", 2, 0⟩).2.2 :=
  (backoff_delays_are_checked_doubling (fun _ => .fail 1 none "m")
    ⟨false, ["x"], "", 2, 0⟩ (by decide) (by decide)
    (by intro h; simp at h) (fun _ => by decide)).1

/-! ## C2 / C3: the orchestrator's stack and cycle detection -/

/-- The first index of `name` in `stack1 ++ name :: stack2` when `name` does
not occur in `stack1`. -/
theorem findIdx?_first_occurrence (name : String) (stack1 stack2 : List String)
    (h : name ∉ stack1) :
    (stack1 ++ name :: stack2).findIdx? (· = name) = some stack1.length := by
  induction stack1 with
  | nil => simp [List.findIdx?_cons]
  | cons a l ih =>
    have ha : ¬(a = name) := fun e => h (by simp [e])
    have hl : name ∉ l := fun hm => h (List.mem_cons_of_mem _ hm)
    simp [List.findIdx?_cons, ha, ih hl]

/-- C2, which the code violates on one exit path:  When task resolution
fails — here, running a name absent from the task map — `run_named_task`
returns with the name still pushed on the stack: the `?` on
`cfg.resolve_task(task_name)` at `cli/mod.rs:301` returns before the
`stack.pop()` at line 317 ever runs, so the caller observes `["missing"]`
instead of the original empty stack. -/
theorem run_named_task_stack_leak_on_resolve_error :
    run_named_task (fun _ => some 0) (fun _ => .ok ())
        { version := 1, defaults := {},
          tasks := some [("a", { exec := ["x"] })] }
        5 "missing" false [] =
      (.error (.usage "task \"missing\" not found"), ["missing"],
       [.resolve "missing"]) ∧
    (["missing"] : List String) ≠ ([] : List String) :=
  ⟨by decide, by decide⟩

/-- C3: Whenever the invoked task name already appears in the in-flight
stack, the orchestrator fails immediately with an error naming the full
cycle chain — the stack slice from the first occurrence of the name through
the repeated name, joined with `" -> "` — resolving no task and spawning no
process (empty event trace, stack unchanged); and on the task set
`{a → b, b → a}` the run fails with an error naming the full cycle
`a -> b -> a`, having resolved only `a` and `b` and recorded no leaf
execution, i.e. no child process was ever spawned. -/
theorem cycle_detection (pd : String → Option Nat)
    (oracle : String → Except AppError Unit) (cfg : Config) (fuel : Nat)
    (name : String) (as_json : Bool) (stack1 stack2 : List String)
    (h : name ∉ stack1) :
    (run_named_task pd oracle cfg fuel name as_json (stack1 ++ name :: stack2) =
      (.error (.usage ("task dependency cycle: "
          ++ String.intercalate " -> " ((name :: stack2) ++ [name]))),
       stack1 ++ name :: stack2, [])) ∧
    (run_named_task (fun _ => some 0) (fun _ => .ok ())
        { version := 1, defaults := {},
          tasks := some [("a", { tasks := ["b"] }), ("b", { tasks := ["a"] })] }
        5 "a" false [] =
      (.error (.runtime "b: a: task dependency cycle: a -> b -> a"), [],
       [.resolve "a", .resolve "b"])) ∧
    ([Event.resolve "a", Event.resolve "b"].all (fun e => !e.isLeafRun)) = true := by
  refine ⟨?_, by decide, by decide⟩
  cases fuel with
  | zero =>
      rw [run_named_task, findIdx?_first_occurrence name stack1 stack2 h]
      dsimp only
      rw [List.drop_left]
  | succ f =>
      rw [run_named_task, findIdx?_first_occurrence name stack1 stack2 h]
      dsimp only
      rw [List.drop_left]

/-- Witness for `cycle_detection` at a concrete in-flight stack
`["x", "a", "y"]` and invoked name `"a"`. -/
theorem cycle_detection_witness :
    run_named_task (fun _ => some 0) (fun _ => .ok ())
        { version := 1, defaults := {}, tasks := none }
        3 "a" false ["x", "a", "y"] =
      (.error (.usage "task dependency cycle: a -> y -> a"),
       ["x", "a", "y"], []) :=
  ((cycle_detection (fun _ => some 0) (fun _ => .ok ())
      { version := 1, defaults := {}, tasks := none }
      3 "a" false ["x"] ["y"] (by decide)).1).trans (by decide)

/-! ## C6: `resolve_task` mode selection -/

/-- C6: For every task definition that resolves, exactly one execution
mode is populated in the result — the shell flag set (with `exec` and
`subTasks` empty), or a non-empty `exec` (shell flag clear, `subTasks`
empty), or a non-empty `subTasks` (shell flag clear, `exec` empty) — chosen
by precedence non-empty `exec` over non-empty `tasks` over the `run` text;
and `commandPreview` is synthesized from the selected mode: the joined exec
tokens, the `"tasks (<mode>): a, b, c"` rendering for groups, or the raw
shell text. -/
theorem resolve_task_exactly_one_mode (parseDur : String → Option Nat)
    (cfg : Config) (name : String) (ts : List (String × Task)) (task : Task)
    (rt : ResolvedTask)
    (htasks : cfg.tasks = some ts) (hfind : lookupA ts name = some task)
    (hres : cfg.resolve_task parseDur name = .ok rt) :
    ((rt.use_shell = true ∧ rt.exec = [] ∧ rt.sub_tasks = []) ∨
     (rt.use_shell = false ∧ rt.exec ≠ [] ∧ rt.sub_tasks = []) ∨
     (rt.use_shell = false ∧ rt.exec = [] ∧ rt.sub_tasks ≠ [])) ∧
    (task.exec ≠ [] →
      rt.use_shell = false ∧ rt.exec = task.exec ∧ rt.sub_tasks = [] ∧
      rt.shell = "" ∧ rt.command_preview = join_command_preview task.exec) ∧
    (task.exec = [] → task.tasks ≠ [] →
      rt.use_shell = false ∧ rt.exec = [] ∧ rt.sub_tasks = task.tasks ∧
      rt.shell = "" ∧
      rt.command_preview = join_task_preview task.tasks task.parallel) ∧
    (task.exec = [] → task.tasks = [] →
      rt.use_shell = true ∧ rt.exec = [] ∧ rt.sub_tasks = [] ∧
      rt.shell = task.run ∧ rt.command_preview = task.run) := by
  unfold Config.resolve_task at hres
  rw [htasks] at hres
  dsimp only at hres
  rw [hfind] at hres
  dsimp only at hres
  cases hto : resolve_duration parseDur task.timeout cfg.defaults.timeout 0 with
  | error e => rw [hto] at hres; cases hres
  | ok timeout =>
    rw [hto] at hres
    cases hbo : resolve_duration parseDur task.retry_backoff
        cfg.defaults.retry_backoff oneSecond with
    | error e => rw [hbo] at hres; cases hres
    | ok backoff =>
      rw [hbo] at hres
      dsimp only at hres
      by_cases hexec : task.exec = []
      · by_cases htk : task.tasks = []
        · rw [if_neg (by simpa using hexec), if_neg (by simpa using htk)] at hres
          have hrt := (Except.ok.inj hres).symm
          subst hrt
          refine ⟨Or.inl ⟨rfl, rfl, rfl⟩, ?_, ?_, ?_⟩
          · intro hxe; exact absurd hexec hxe
          · intro _ hne; exact absurd htk hne
          · intro _ _; exact ⟨rfl, rfl, rfl, rfl, rfl⟩
        · rw [if_neg (by simpa using hexec), if_pos (by simpa using htk)] at hres
          have hrt := (Except.ok.inj hres).symm
          subst hrt
          refine ⟨Or.inr (Or.inr ⟨rfl, rfl, by simpa using htk⟩), ?_, ?_, ?_⟩
          · intro hxe; exact absurd hexec hxe
          · intro _ _; exact ⟨rfl, rfl, rfl, rfl, rfl⟩
          · intro _ hte; exact absurd hte htk
      · rw [if_pos (by simpa using hexec)] at hres
        have hrt := (Except.ok.inj hres).symm
        subst hrt
        refine ⟨Or.inr (Or.inl ⟨rfl, by simpa using hexec, rfl⟩), ?_, ?_, ?_⟩
        · intro _; exact ⟨rfl, rfl, rfl, rfl, rfl⟩
        · intro hxe _; exact absurd hxe hexec
        · intro hxe _; exact absurd hxe hexec

/-- Witness for `resolve_task_exactly_one_mode`: a config whose only task is
a shell command. -/
theorem resolve_task_exactly_one_mode_witness :
    ∃ rt, Config.resolve_task (fun _ => some 0)
        { version := 1, defaults := {},
          tasks := some [("clean", { run := "rm -rf ./target" })] } "clean"
        = .ok rt ∧
      rt.use_shell = true ∧ rt.exec = [] ∧ rt.sub_tasks = [] ∧
      rt.command_preview = "rm -rf ./target" := by
  have h := (resolve_task_exactly_one_mode (fun _ => some 0)
      { version := 1, defaults := {},
        tasks := some [("clean", { run := "rm -rf ./target" })] } "clean"
      [("clean", { run := "rm -rf ./target" })] { run := "rm -rf ./target" }
      { name := "clean", source := .Task, command_preview := "rm -rf ./target",
        sub_tasks := [], parallel := false, use_shell := true, exec := [],
        shell := "rm -rf ./target", dir := "", env := [], timeout := 0,
        retries := 0, retry_backoff := oneSecond, notify_on := "failure" }
      rfl rfl rfl).2.2.2 rfl rfl
  exact ⟨_, rfl, h.1, h.2.1, h.2.2.1, h.2.2.2.2⟩

/-! ## C7: `expand_variables` -/

theorem renderToks_nil (lookup : List (List Nat × List Nat)) :
    renderToks lookup [] = [] := rfl

theorem renderToks_cons (lookup : List (List Nat × List Nat)) (t : VarTok)
    (ts : List VarTok) :
    renderToks lookup (t :: ts) = renderTok lookup t ++ renderToks lookup ts := by
  simp [renderToks]

/-- The scanner loop agrees with the spec-side tokenize-then-render reading,
for any fuel bounding the input length. -/
theorem expandVarsGo_eq_render (lookup : List (List Nat × List Nat)) :
    ∀ fuel v, v.length ≤ fuel →
      expandVarsGo lookup fuel v = renderToks lookup (tokenizeGo fuel v) := by
  intro fuel
  induction fuel with
  | zero =>
    intro v hv
    have hnil : v = [] := List.length_eq_zero.mp (Nat.le_zero.mp hv)
    subst hnil
    rfl
  | succ fuel ih =>
    intro v hv
    match v with
    | [] => rfl
    | b :: rest =>
      by_cases hb : b = 36
      · subst hb
        cases rest with
        | nil => rfl
        | cons c rest2 =>
          by_cases hc : c = 123
          · subst hc
            cases hsp : splitAtByte 125 rest2 with
            | some p =>
              obtain ⟨key, after⟩ := p
              have hlen : after.length ≤ fuel := by
                have h1 := splitAtByte_length hsp
                simp only [List.length_cons] at hv
                omega
              simp only [expandVarsGo, tokenizeGo]
              try dsimp only
              rw [hsp]
              try dsimp only
              rw [ih after hlen]
              simp [renderToks_cons, renderTok, utf8Byte]
            | none =>
              have hlen : rest2.length + 1 ≤ fuel := by
                simp only [List.length_cons] at hv
                omega
              simp only [expandVarsGo, tokenizeGo]
              try dsimp only
              rw [hsp]
              try dsimp only
              rw [ih (123 :: rest2) (by simpa using hlen)]
              simp [renderToks_cons, renderTok, utf8Byte]
          · by_cases hi : isIdentStart c
            · have hlen : (rest2.dropWhile isIdentByte).length ≤ fuel := by
                have h2 := dropWhile_length_le isIdentByte rest2
                simp only [List.length_cons] at hv
                omega
              simp only [expandVarsGo, tokenizeGo]
              try dsimp only
              rw [if_neg hc, if_neg hc, if_pos hi, if_pos hi]
              rw [ih _ hlen]
              simp [renderToks_cons, renderTok, utf8Byte]
            · have hlen : rest2.length + 1 ≤ fuel := by
                simp only [List.length_cons] at hv
                omega
              simp only [expandVarsGo, tokenizeGo]
              try dsimp only
              rw [if_neg hc, if_neg hc, if_neg hi, if_neg hi]
              rw [ih (c :: rest2) (by simpa using hlen)]
              simp [renderToks_cons, renderTok, utf8Byte]
      · have hlen : rest.length ≤ fuel := by
          simp only [List.length_cons] at hv
          omega
        simp only [expandVarsGo, tokenizeGo]
        try dsimp only
        rw [if_neg hb, if_neg hb]
        rw [ih rest hlen]
        simp [renderToks_cons, renderTok, utf8Byte]

/-- C7: Variable expansion is exactly: scan the input into literal bytes
and `$NAME` / `${NAME}` references (identifier `[A-Za-z_][A-Za-z0-9_]*`,
maximal munch; braced names delimited by the first `}`), then substitute
every reference whose name is in the lookup with exactly its value and leave
every unresolved reference in canonical `${NAME}` form — a total function
that never drops a reference.  Concretely: unresolved `${NOPE}` and `$NOPE`
both come out as `${NOPE}`; resolved references substitute exactly; a `$`
that opens no reference is preserved. -/
theorem expand_variables_substitutes_references :
    (∀ lookup value, expandVars lookup value = renderToks lookup (tokenize value)) ∧
    expandVars [] (strBytes "${NOPE}") = strBytes "${NOPE}" ∧
    expandVars [] (strBytes "$NOPE") = strBytes "${NOPE}" ∧
    expandVars [(strBytes "NOPE", strBytes "yes")] (strBytes "${NOPE}")
      = strBytes "yes" ∧
    expandVars [(strBytes "A", strBytes "va")] (strBytes "x $A y")
      = strBytes "x va y" ∧
    expandVars [] (strBytes "$1 $") = strBytes "$1 $" :=
  ⟨fun lookup value => expandVarsGo_eq_render lookup value.length value (Nat.le_refl _),
   by decide, by decide, by decide, by decide, by decide⟩

/-! ## C8: the layered expansion lookup -/

/-- Lookup distributes over append: the left map wins. -/
theorem lookupB_append (l m : List (List Nat × List Nat)) (k : List Nat) :
    lookupB (l ++ m) k = (lookupB l k).or (lookupB m k) := by
  induction l with
  | nil => simp [lookupB]
  | cons kv rest ih =>
    by_cases hk : kv.1 = k
    · simp [lookupB, hk]
    · simp [lookupB, hk, ih]

/-- Rendering only consults the lookup through `lookupB`, so pointwise-equal
lookups render identically. -/
theorem renderToks_congr (L M : List (List Nat × List Nat))
    (h : ∀ k, lookupB L k = lookupB M k) (toks : List VarTok) :
    renderToks L toks = renderToks M toks := by
  induction toks with
  | nil => rfl
  | cons t ts ih =>
    rw [renderToks_cons, renderToks_cons, ih]
    cases t with
    | lit b => rfl
    | ref key => simp [renderTok, h key]

/-- Pointwise-equal lookups expand every value identically. -/
theorem expandVars_congr (L M : List (List Nat × List Nat))
    (h : ∀ k, lookupB L k = lookupB M k) (value : List Nat) :
    expandVars L value = expandVars M value := by
  rw [show expandVars L value = renderToks L (tokenize value) from
      expandVarsGo_eq_render L value.length value (Nat.le_refl _),
    show expandVars M value = renderToks M (tokenize value) from
      expandVarsGo_eq_render M value.length value (Nat.le_refl _)]
  exact renderToks_congr L M h _

/-- Lookup at `k` only depends on the filter predicate's verdicts on entries
keyed `k`. -/
theorem lookupB_filter_congr (P Q : List Nat × List Nat → Bool) (k : List Nat)
    (l : List (List Nat × List Nat))
    (h : ∀ v, P (k, v) = Q (k, v)) :
    lookupB (l.filter P) k = lookupB (l.filter Q) k := by
  induction l with
  | nil => rfl
  | cons kv rest ih =>
    obtain ⟨k0, v0⟩ := kv
    by_cases hk : k0 = k
    · subst hk
      rw [List.filter_cons, List.filter_cons, h v0]
      cases hq : Q (k0, v0) with
      | true => simp [lookupB]
      | false => simpa using ih
    · rw [List.filter_cons, List.filter_cons]
      cases hp : P (k0, v0) with
      | true =>
          cases hq : Q (k0, v0) with
          | true => simpa [lookupB, hk] using ih
          | false => simpa [lookupB, hk] using ih
      | false =>
          cases hq : Q (k0, v0) with
          | true => simpa [lookupB, hk] using ih
          | false => simpa using ih

/-- The dotenv phase builds a lookup pointwise equal to "the starting lookup,
extended by the dotenv bindings whose keys it does not already contain". -/
theorem dotenv_phase_lookup (dotenv : List (List Nat × List Nat)) :
    ∀ (rt L : List (List Nat × List Nat)) (k : List Nat),
      lookupB (dotenv.foldl (fun acc kv =>
          if containsKeyB acc.2 kv.1 then acc
          else (insertB acc.1 kv.1 kv.2, insertB acc.2 kv.1 kv.2)) (rt, L)).2 k
        = lookupB (L ++ dotenv.filter (fun kv => !containsKeyB L kv.1)) k := by
  induction dotenv with
  | nil =>
    intro rt L k
    simp [List.foldl_nil]
  | cons kv rest ih =>
    intro rt L k
    obtain ⟨k0, v0⟩ := kv
    simp only [List.foldl_cons, List.filter_cons]
    cases hk : containsKeyB L k0 with
    | true =>
      rw [if_pos rfl, ih rt L k, if_neg (by decide)]
    | false =>
      rw [if_neg (by decide), ih (insertB rt k0 v0) (insertB L k0 v0) k,
        if_pos (by decide)]
      have hLnone : lookupB L k0 = none := by
        by_contra hne
        have : containsKeyB L k0 = true := by
          unfold containsKeyB
          exact Option.isSome_iff_ne_none.mpr hne
        rw [hk] at this
        cases this
      by_cases hkk : k0 = k
      · subst hkk
        rw [lookupB_append, lookupB_append]
        simp [insertB, lookupB, hLnone]
      · rw [lookupB_append, lookupB_append]
        have hhead : lookupB (insertB L k0 v0) k = lookupB L k := by
          simp [insertB, lookupB, hkk]
        have htail : lookupB
            (rest.filter (fun kv => !containsKeyB (insertB L k0 v0) kv.1)) k
            = lookupB (rest.filter (fun kv => !containsKeyB L kv.1)) k := by
          refine lookupB_filter_congr _ _ k rest ?_
          intro v
          simp [containsKeyB, insertB, lookupB, hkk]
        rw [hhead, htail]
        have hcons : lookupB ((k0, v0) :: rest.filter
            (fun kv => !containsKeyB L kv.1)) k
            = lookupB (rest.filter (fun kv => !containsKeyB L kv.1)) k := by
          simp [lookupB, hkk]
        rw [hcons]

/-- The task-env phase: walking the same key list, the code's paired
(`runtime_env`, `lookup`) fold computes a lookup pointwise equal to the
spec's lookup-only fold started from any pointwise-equal lookup. -/
theorem env_fold_lookup (taskEnv : List (List Nat × List Nat))
    (keys : List (List Nat)) :
    ∀ (rt L L' : List (List Nat × List Nat)),
      (∀ k, lookupB L k = lookupB L' k) →
      ∀ k,
      lookupB (keys.foldl (fun acc k =>
          match lookupB taskEnv k with
          | some value =>
              let expanded := expandVars acc.2 value
              (insertB acc.1 k expanded, insertB acc.2 k expanded)
          | none => acc) (rt, L)).2 k
        = lookupB (keys.foldl (fun l k =>
            match lookupB taskEnv k with
            | some value => insertB l k (expandVars l value)
            | none => l) L') k := by
  induction keys with
  | nil => intro rt L L' h k; exact h k
  | cons k0 rest ih =>
    intro rt L L' h k
    simp only [List.foldl_cons]
    cases hv : lookupB taskEnv k0 with
    | none =>
      dsimp only
      exact ih rt L L' h k
    | some value =>
      dsimp only
      have he : expandVars L value = expandVars L' value :=
        expandVars_congr L L' h value
      refine ih _ _ _ ?_ k
      intro k'
      by_cases hkk : k0 = k'
      · subst hkk
        simp [insertB, lookupB, he]
      · simp [insertB, lookupB, hkk, h k']

/-- C8: The expansion lookup is layered exactly as the spec says: the
process environment first; then dotenv-file values added only for keys
absent from the process environment; then the task's own env map applied in
key-sorted order, each key's expanded value inserted into the lookup before
the next key is expanded — so the lookup the code builds is pointwise equal
to that spec construction, a shell task's command is expanded against it,
and (concretely) with task env `{b: "$a", a: "x"}` the later-sorted key `b`
receives `a`'s resolved value `x` under either declaration order. -/
theorem apply_runtime_env_layered_lookup :
    (∀ procEnv dotenv_vars taskEnv (k : List Nat),
      lookupB (build_runtime_env procEnv dotenv_vars taskEnv).2 k
        = lookupB (specLayeredLookup procEnv dotenv_vars taskEnv) k) ∧
    (∀ procEnv dotenv_vars (t : EnvTask), t.use_shell = true →
      (apply_runtime_env procEnv dotenv_vars t).shell
        = expandVars (specLayeredLookup procEnv dotenv_vars t.env) t.shell) ∧
    lookupB (build_runtime_env [] []
        [(strBytes "b", strBytes "$a"), (strBytes "a", strBytes "x")]).1
      (strBytes "b") = some (strBytes "x") ∧
    lookupB (build_runtime_env [] []
        [(strBytes "a", strBytes "x"), (strBytes "b", strBytes "$a")]).1
      (strBytes "b") = some (strBytes "x") := by
  have hmain : ∀ procEnv dotenv_vars taskEnv (k : List Nat),
      lookupB (build_runtime_env procEnv dotenv_vars taskEnv).2 k
        = lookupB (specLayeredLookup procEnv dotenv_vars taskEnv) k := by
    intro procEnv dotenv_vars taskEnv k
    unfold build_runtime_env specLayeredLookup
    by_cases ht : taskEnv = []
    · subst ht
      simp only [List.map_nil, if_pos rfl]
      exact dotenv_phase_lookup dotenv_vars [] procEnv k
    · rw [if_neg ht]
      exact env_fold_lookup taskEnv (sortKeys (taskEnv.map (·.1))) _ _ _
        (dotenv_phase_lookup dotenv_vars [] procEnv) k
  refine ⟨hmain, ?_, by decide, by decide⟩
  intro procEnv dotenv_vars t h
  simp only [apply_runtime_env, h, if_pos, ite_true]
  exact expandVars_congr _ _ (fun k => hmain procEnv dotenv_vars t.env k) t.shell

/-- Witness for `apply_runtime_env_layered_lookup`: a concrete shell task
whose command references a task-env key. -/
theorem apply_runtime_env_layered_lookup_witness :
    (apply_runtime_env [] []
        { use_shell := true, exec := [], shell := strBytes "echo $A",
          dir := [], env := [(strBytes "A", strBytes "1")],
          command_preview := [] }).shell
      = expandVars (specLayeredLookup [] [] [(strBytes "A", strBytes "1")])
          (strBytes "echo $A") :=
  apply_runtime_env_layered_lookup.2.1 [] []
    { use_shell := true, exec := [], shell := strBytes "echo $A",
      dir := [], env := [(strBytes "A", strBytes "1")],
      command_preview := [] } rfl

end Theorems

end Otto
